import Mathlib

/-!
Verification development for the s2-coverings spatial-to-RDF pipeline.

The Lean definitions below are a shallow embedding of the Python sources:
cell-id arithmetic and enumeration (`s2geometry` interface used by
`src/lib/s2/s2_layer_generator.py`), the IRI factory
(`src/lib/rdf/kwg_ont.py`), the relation materializer
(`src/lib/geo/geometric_feature.py`), the cell describer
(`src/lib/s2/s2_rdf_generator.py`), the coverer wrapper
(`src/lib/geo/constrained_s2_region_converer.py`) and the batched writer
(`src/lib/integration/integrator.py`).

S2 cell ids are modelled as natural numbers with the standard S2 bit
layout: a level-L cell id has a single trailing set bit at position
2*(30-L).  Region coverings themselves are external calls into the S2
library; they enter the embedding as oracle functions (`cover`,
`overlapCells`, ...), since every claim below is about what the Python
code does with the coverings, not about spherical geometry.
-/

set_option maxRecDepth 8000

namespace S2Cov

/-- Number of trailing zero bits of a natural number, with explicit fuel so
that the definition is structural.  Fuel 64 covers every 64-bit cell id. -/
def tzAux : Nat → Nat → Nat
  | 0, _ => 0
  | fuel + 1, n => if n = 0 then 0 else if n % 2 = 1 then 0 else tzAux fuel (n / 2) + 1

/-- Modelled from the spec: `S2CellId.level()` of the external s2geometry
library (spec section 4.1, glossary).  The level of a cell id is 30 minus
half the position of its lowest set bit. -/
def cellLevel (c : Nat) : Nat := 30 - tzAux 64 c / 2

/-- Modelled from the spec: the lowest set bit of a cell id
(the `lsb` of the S2 bit layout described in the glossary). -/
def cellLsb (c : Nat) : Nat := 2 ^ tzAux 64 c

/-- Modelled from the spec: `S2CellId.parent()` of the external s2geometry
library (spec section 4.1): round the id down to a multiple of the parent
lsb and set the parent lsb bit. -/
def cellParent (c : Nat) : Nat :=
  let nl := 4 * cellLsb c
  let r := c - c % nl
  if r / nl % 2 = 1 then r else r + nl

/-- The decimal digit character for `n % 10`, as produced by Python `str`. -/
def digitChar10 (n : Nat) : Char := Char.ofNat (48 + n % 10)

/-- Decimal digit list of a natural number (embedding of Python `str` on a
non-negative int), with explicit structural fuel. -/
def natDigitsAux : Nat → Nat → List Char
  | 0, _ => []
  | fuel + 1, n =>
    if n < 10 then [digitChar10 n] else natDigitsAux fuel (n / 10) ++ [digitChar10 n]

/-- Decimal digit list of a natural number; fuel 30 covers all 64-bit ids. -/
def natDigits (n : Nat) : List Char := natDigitsAux 30 n

/-- Embedding of `KWGOnt.kwg_endpoint` from `src/lib/rdf/kwg_ont.py`. -/
def kwgEndpoint : List Char := "http://stko-kwg.geog.ucsb.edu/".toList

/-- Embedding of `KWGOnt.KWGR`, the resource namespace from `src/lib/rdf/kwg_ont.py`. -/
def kwgrNamespace : List Char := kwgEndpoint ++ "lod/resource/".toList

/-- The IRI character list built from a level and an id: the template
`s2.level{L}.{ID}` under the KWGR namespace (spec section 4.5). -/
def mkCellIriChars (level id : Nat) : List Char :=
  kwgrNamespace ++ "s2.level".toList ++ natDigits level ++ [Char.ofNat 46] ++ natDigits id

/-- Embedding of `generate_cell_iri` from `src/lib/rdf/kwg_ont.py`, as a character list:
it reads the cell level and decimal id and instantiates the template. -/
def generateCellIriChars (c : Nat) : List Char := mkCellIriChars (cellLevel c) c

/-- Embedding of `generate_cell_iri` from `src/lib/rdf/kwg_ont.py` as a string. -/
def generate_cell_iri (c : Nat) : String := String.mk (generateCellIriChars c)

/-- Characters we accept inside the IRIs this program generates:
lowercase letters, digits, dot, slash, colon and hyphen. -/
def isAllowedIriChar (c : Char) : Bool :=
  c.isLower || c.isDigit || c == Char.ofNat 46 || c == Char.ofNat 47 ||
    c == Char.ofNat 58 || c == Char.ofNat 45

/-- A modest syntactic-validity predicate for absolute IRIs: the string
starts with the scheme prefix of the http scheme and every character is
drawn from the allowed IRI character set (no spaces, no reserved junk). -/
def IsValidAbsoluteIri (cs : List Char) : Prop :=
  "http://".toList <+: cs ∧ ∀ ch ∈ cs, isAllowedIriChar ch = true

/-! ## Coverer (`S2RegionCoverer` state and `ConstrainedS2RegionCoverer`) -/

/-- The mutable state of an S2 region coverer: minimum level, maximum level
and maximum cell budget (spec section 4.3). -/
structure Coverer where
  minLevel : Int
  maxLevel : Int
  maxCells : Nat
deriving DecidableEq

/-- Modelled from the spec: a freshly constructed `S2RegionCoverer` of the
external s2geometry library covers the full level range with the default
budget of 8 cells. -/
def s2RegionCovererDefault : Coverer := { minLevel := 0, maxLevel := 30, maxCells := 8 }

/-- Modelled from the spec: `set_min_level` of the external s2geometry
library clamps its argument into the valid level range [0, 30]. -/
def setMinLevel (c : Coverer) (l : Int) : Coverer :=
  { c with minLevel := max 0 (min 30 l) }

/-- Modelled from the spec: `set_max_level` of the external s2geometry
library clamps its argument into the valid level range [0, 30]. -/
def setMaxLevel (c : Coverer) (l : Int) : Coverer :=
  { c with maxLevel := max 0 (min 30 l) }

/-- Embedding of `ConstrainedS2RegionCoverer.__init__` from
`src/lib/geo/constrained_s2_region_converer.py`: apply `set_max_level`
when `max_level` is truthy and non-negative, then `set_min_level` when
`min_level` is truthy and non-negative. -/
def constrainedS2RegionCoverer (minL maxL : Int) : Coverer :=
  let c0 := s2RegionCovererDefault
  let c1 := if maxL ≠ 0 ∧ 0 ≤ maxL then setMaxLevel c0 maxL else c0
  if minL ≠ 0 ∧ 0 ≤ minL then setMinLevel c1 minL else c1

/-- The per-feature coverer set up by `Integrator.write_all_relations` in
`src/lib/integration/integrator.py` (lines 113-118): construct a
`ConstrainedS2RegionCoverer(min_level, max_level)`; when not compressed,
re-apply `set_min_level(min_level)` if `min_level` is truthy; when
compressed, apply `set_min_level(0)`. -/
def integratorFeatureCoverer (isCompressed : Bool) (minL maxL : Int) : Coverer :=
  let c := constrainedS2RegionCoverer minL maxL
  if !isCompressed then
    if minL ≠ 0 then setMinLevel c minL else c
  else
    setMinLevel c 0

/-! ## Triples and vocabulary -/

/-- A logical RDF triple of IRIs as emitted by the pipeline. -/
structure Triple where
  subj : String
  pred : String
  obj : String
deriving DecidableEq

/-- The converse predicate of a GeoSPARQL simple-features predicate:
`sfContains` and `sfWithin` are swapped, the symmetric predicates
(`sfOverlaps`, `sfTouches`, `sfCrosses`) map to themselves. -/
def conversePredicate (p : String) : String :=
  if p = "sfContains" then "sfWithin"
  else if p = "sfWithin" then "sfContains"
  else p

/-- The converse of a triple: swap subject and object and take the
converse predicate. -/
def converseTriple (t : Triple) : Triple :=
  { subj := t.obj, pred := conversePredicate t.pred, obj := t.subj }

/-! ## Python name resolution

`geometric_feature.py` and `geometric_features.py` both reference names
they never import; the embedding models a module namespace as the list of
names the module binds, and a name lookup that fails with the Python
`NameError` message. -/

/-- Look a name up in a module namespace; unbound names raise NameError. -/
def resolvePyName (names : List String) (n : String) : Except String Unit :=
  if n ∈ names then Except.ok () else
    Except.error ("NameError: name " ++ n ++ " is not defined")

/-- The names bound at module level in `src/lib/geo/geometric_feature.py`:
its imports (lines 1-28) and its own class.  `MultiLineString` is absent:
line 17-24 imports only `LinearRing, LineString, MultiPolygon, Point,
Polygon, buffer` from shapely. -/
def geometricFeatureModuleNames : List String :=
  ["annotations", "partial", "Generator", "Optional", "URIRef",
   "S2Cell", "S2CellId", "S2LatLng", "S2Loop", "S2Point", "S2Polygon",
   "S2Polyline", "S2RegionCoverer",
   "LinearRing", "LineString", "MultiPolygon", "Point", "Polygon", "buffer",
   "signed_area", "KWGOnt", "generate_cell_iri",
   "ConstrainedS2RegionCoverer", "GeometricFeature"]

/-- The names bound at module level in `src/lib/geo/geometric_features.py`:
its imports (lines 1-4) and its own class.  `loads` (the shapely WKT
parser) is absent: the module never imports it. -/
def geometricFeaturesModuleNames : List String :=
  ["Path", "GeometricFeature", "GeometryParser", "GeometricFeatures"]

/-! ## Geometry variant -/

/-- The tagged geometry variant the relation materializer dispatches on
(spec section 9).  Planar coordinates are irrelevant to every claim below
except as opaque payload, so a point carries its (lon, lat) coordinates in
hundredths of a degree as integers. -/
inductive PyGeometry where
  | point (lonLat : Int × Int)
  | lineString
  | multiLineString
  | linearRing
  | polygon
  | multiPolygon
  | other (geomType : String)
deriving DecidableEq

/-- Embedding of `isinstance(geometry, (Polygon, MultiPolygon))`. -/
def isPolygonInstance : PyGeometry → Bool
  | .polygon => true
  | .multiPolygon => true
  | _ => false

/-- Embedding of `isinstance(geometry, (LineString, MultiLineString))` (evaluated only
after the name `MultiLineString` resolves, which it never does). -/
def isLineInstance : PyGeometry → Bool
  | .lineString => true
  | .multiLineString => true
  | _ => false

/-- Embedding of `isinstance(geometry, Point)`. -/
def isPointInstance : PyGeometry → Bool
  | .point _ => true
  | _ => false

/-- The `geom_type` string used in the unsupported-geometry error. -/
def geomTypeName : PyGeometry → String
  | .point _ => "Point"
  | .lineString => "LineString"
  | .multiLineString => "MultiLineString"
  | .linearRing => "LinearRing"
  | .polygon => "Polygon"
  | .multiPolygon => "MultiPolygon"
  | .other ty => ty

/-! ## The saturation loop (`GeometricFeature.filling`) -/

/-- The body of the saturation loop in `GeometricFeature.filling`
(`src/lib/geo/geometric_feature.py` lines 204-213), over the remaining
list of exponents.  `cover maxCells` stands for
`coverer.GetInteriorCovering(s2_obj)` after `coverer.set_max_cells(maxCells)`:
with the region and the level bounds fixed, the covering is a pure
function of the cell budget.  `acc` is the `filling` variable. -/
def fillingLoop (cover : Nat → List Nat) : List Nat → List Nat → List Nat
  | [], acc => acc
  | e :: rest, _acc =>
    let f := cover (10 ^ e)
    if f.length < 10 ^ (e - 1) then f else fillingLoop cover rest f

/-- Embedding of `GeometricFeature.filling`: run the saturation loop over
`range(4, 9)` starting from the empty filling. -/
def filling (cover : Nat → List Nat) : List Nat :=
  fillingLoop cover [4, 5, 6, 7, 8] []

/-- Instrumented version of the saturation loop that records the exponents
of the iterations actually executed. -/
def fillingExponentsLoop (cover : Nat → List Nat) : List Nat → List Nat
  | [] => []
  | e :: rest =>
    if (cover (10 ^ e)).length < 10 ^ (e - 1) then [e]
    else e :: fillingExponentsLoop cover rest

/-- The exponents executed by `GeometricFeature.filling`. -/
def fillingExponents (cover : Nat → List Nat) : List Nat :=
  fillingExponentsLoop cover [4, 5, 6, 7, 8]

/-! ## The relation materializer (`GeometricFeature.yield_s2_relations`) -/

/-- Embedding of `GeometricFeature.yield_s2_relations` from
`src/lib/geo/geometric_feature.py` (lines 246-282), as the pair of the
triples the generator yields before finishing or raising, and the error it
raises (if any).  The S2 library calls are oracles: `cover` is the
interior covering as a function of the cell budget, `overlapCells` the
boundary-overlap covering union (`yield_overlapping_ids`), `crossingCells`
the buffered line covering (`yield_crossing_ids`), and `leafCell` the leaf
cell lookup `S2CellId(s2_point)` for a point.  The non-polygon branches
first evaluate `isinstance(self.geometry, (LineString, MultiLineString))`,
which looks up the unbound name `MultiLineString`. -/
def yield_s2_relations (featureIri : String) (geometry : PyGeometry)
    (cover : Nat → List Nat) (overlapCells crossingCells : List Nat)
    (leafCell : Int × Int → Nat) : List Triple × Option String :=
  if isPolygonInstance geometry then
    let fillTriples := (filling cover).map fun c =>
      [Triple.mk featureIri "sfContains" (generate_cell_iri c),
       Triple.mk (generate_cell_iri c) "sfWithin" featureIri]
    let overlapTriples := overlapCells.map fun c =>
      [Triple.mk featureIri "sfOverlaps" (generate_cell_iri c),
       Triple.mk (generate_cell_iri c) "sfOverlaps" featureIri]
    (fillTriples.flatten ++ overlapTriples.flatten, none)
  else
    match resolvePyName geometricFeatureModuleNames "MultiLineString" with
    | Except.error e => ([], some e)
    | Except.ok _ =>
      if isLineInstance geometry then
        let crossTriples := crossingCells.map fun c =>
          [Triple.mk featureIri "sfCrosses" (generate_cell_iri c),
           Triple.mk (generate_cell_iri c) "sfCrosses" featureIri]
        (crossTriples.flatten, none)
      else if isPointInstance geometry then
        match geometry with
        | .point ll =>
          let c := cellParent (leafCell ll)
          ([Triple.mk featureIri "sfWithin" (generate_cell_iri c),
            Triple.mk (generate_cell_iri c) "sfContains" featureIri], none)
        | _ => ([], none)
      else
        ([], some ("Geometry of type " ++ geomTypeName geometry ++
          " not supported for s2 relations"))

/-! ## The cell describer (`S2RDFGenerator`) topological edges -/

/-- Embedding of `S2RDFGenerator.get_parent_at_level` from
`src/lib/s2/s2_rdf_generator.py` (lines 125-138), with explicit structural
fuel standing in for the recursion depth (fuel 64 is ample for levels up
to 30).  One loop iteration decrements `current_cell_level`, replaces the
cell by a recursive call on its parent, and re-checks the condition. -/
def get_parent_at_level : Nat → Nat → Int → Int → Nat
  | 0, cell, _, _ => cell
  | fuel + 1, cell, currentCellLevel, targetLevel =>
    if targetLevel < (cellLevel cell : Int) then
      get_parent_at_level fuel
        (get_parent_at_level fuel (cellParent cell) (currentCellLevel - 1) targetLevel)
        (currentCellLevel - 1) targetLevel
    else cell

/-- Python truthiness of the `target_parent_level` attribute, which holds
either `None` or an integer. -/
def truthyTarget : Option Int → Bool
  | none => false
  | some n => n != 0

/-- The parent cell chosen by `S2RDFGenerator.add_parent_relations`
(lines 111-117): `get_parent_at_level` when `target_parent_level` is
truthy, else the immediate parent. -/
def describerParent (cell : Nat) (targetParentLevel : Option Int) : Nat :=
  if truthyTarget targetParentLevel then
    get_parent_at_level 64 cell (cellLevel cell : Int) (targetParentLevel.getD 0)
  else cellParent cell

/-- The triples added by `S2RDFGenerator.add_parent_relations`
(`src/lib/s2/s2_rdf_generator.py` lines 107-123). -/
def add_parent_relations (cell : Nat) (targetParentLevel : Option Int) : List Triple :=
  if 0 < cellLevel cell ∧ cellLevel cell < 31 then
    let parent := describerParent cell targetParentLevel
    [Triple.mk (generate_cell_iri cell) "sfWithin" (generate_cell_iri parent),
     Triple.mk (generate_cell_iri parent) "sfContains" (generate_cell_iri cell)]
  else []

/-- The triples added by `S2RDFGenerator.add_neighbors`
(`src/lib/s2/s2_rdf_generator.py` lines 93-105); the neighbor list
returned by `S2CellId.GetAllNeighbors` is an oracle. -/
def add_neighbors (neighbors : List Nat) (cell : Nat) : List Triple :=
  (neighbors.map fun nb =>
    [Triple.mk (generate_cell_iri cell) "sfTouches" (generate_cell_iri nb),
     Triple.mk (generate_cell_iri nb) "sfTouches" (generate_cell_iri cell)]).flatten

/-- All topological (neighbor and parent) edges emitted by the cell
describer for one cell. -/
def describerTopoTriples (neighbors : List Nat) (cell : Nat)
    (targetParentLevel : Option Int) : List Triple :=
  add_neighbors neighbors cell ++ add_parent_relations cell targetParentLevel

/-! ## The batched writer (`Integrator.write_all_relations`) -/

/-- The loop state of `Integrator.write_all_relations`
(`src/lib/integration/integrator.py` lines 105-139): the current rdflib
graph (a set of triples, modelled as a duplicate-free insertion-ordered
list), the `triple_count` of yields since the last flush, and the files
written so far (newest last; the monotonic `file_counter` is the list
index). -/
structure WriterState where
  graph : List Triple
  count : Nat
  files : List (List Triple)
deriving DecidableEq

/-- The initial writer state: empty graph, zero counters, no files. -/
def writerInit : WriterState := { graph := [], count := 0, files := [] }

/-- Embedding of `graph.add(s2_triple)`: rdflib graphs are sets, adding an already
present triple leaves the graph unchanged. -/
def graphAdd (g : List Triple) (t : Triple) : List Triple :=
  if t ∈ g then g else g ++ [t]

/-- Processing of one yielded triple by `write_all_relations`: add it to
the graph, bump `triple_count`, and flush (write the graph as a new file,
then reset graph and count) once `triple_count >= flush_threshold`. -/
def writerStep (flushThreshold : Nat) (s : WriterState) (t : Triple) : WriterState :=
  let g := graphAdd s.graph t
  let c := s.count + 1
  if flushThreshold ≤ c then
    { graph := [], count := 0, files := s.files ++ [g] }
  else
    { graph := g, count := c, files := s.files }

/-- Embedding of `Integrator.write_all_relations` in feature mode, over the stream of
triples each feature yields (the body of the nested `for` loops), followed
by the final remainder flush guarded by `triple_count > 0`. -/
def write_all_relations (flushThreshold : Nat) (features : List (List Triple)) :
    List (List Triple) :=
  let s := features.foldl (fun s f => f.foldl (writerStep flushThreshold) s) writerInit
  if 0 < s.count then s.files ++ [s.graph] else s.files

/-- A concrete relation-materializer output with duplicates: a polygon
feature whose interior covering is empty and whose boundary-overlap
covering lists the cell 1 twice (the overlap ids are a union over boundary
rings and are not deduplicated), so the generator yields the same
sfOverlaps pair twice. -/
def duplicateOverlapStream : List Triple :=
  (yield_s2_relations "https://example.org/f" PyGeometry.polygon
    (fun _ => []) [1, 1] [] (fun _ => 0)).1

/-! ## Cell enumeration and batching (`S2LevelGenerator.generate_cells_at_level`) -/

/-- Modelled from the spec: the lsb of every cell id at level `L`
(S2 bit layout, spec glossary). -/
def lsbAtLevel (L : Nat) : Nat := 2 ^ (2 * (30 - L))

/-- Modelled from the spec: `S2CellId.Begin(level)` of the external
s2geometry library (spec section 4.1) - the first level-`L` cell of face 0. -/
def cellIdBegin (L : Nat) : Nat := lsbAtLevel L

/-- Modelled from the spec: `S2CellId.End(level)` of the external
s2geometry library (spec section 4.1) - the sentinel one past the last
level-`L` cell of face 5. -/
def cellIdEnd (L : Nat) : Nat := 6 * 2 ^ 61 + lsbAtLevel L

/-- The arithmetic progression `[current, current + step, ...]` of the
given length: the ids visited by repeated `S2CellId.next()`. -/
def seqFrom (step : Nat) : Nat → Nat → List Nat
  | _, 0 => []
  | current, n + 1 => current :: seqFrom step (current + step) n

/-- The batching loop of `S2LevelGenerator.generate_cells_at_level`
(`src/lib/s2/s2_layer_generator.py` lines 85-101): while the current id
differs from the sentinel, append it to the mini batch, emit the mini
batch once it reaches `batch_size`, and advance by `next()` (which adds
`2 * lsb`); after the loop, emit the non-empty remainder.  The final
`else` branch is unreachable on aligned inputs (there the source loop
would not terminate, since its only exit is `current_id == ending_id`). -/
def enumLoop (step : Nat) (current ending batchSize : Nat)
    (batch : List Nat) (out : List (List Nat)) : List (List Nat) :=
  if current = ending then
    if batch.isEmpty then out else out ++ [batch]
  else if _h : current < ending ∧ 0 < step then
    let batch2 := batch ++ [current]
    if batch2.length = batchSize then
      enumLoop step (current + step) ending batchSize [] (out ++ [batch2])
    else
      enumLoop step (current + step) ending batchSize batch2 out
  else out
termination_by ending - current
decreasing_by all_goals omega

/-- Embedding of `S2LevelGenerator.generate_cells_at_level`: batch the enumeration from
`Begin(level)` to `End(level)` into mini batches of at most `batch_size`
ids.  (The source stores ids as decimal strings for pickling; the
embedding keeps them as numbers.) -/
def generate_cells_at_level (level batchSize : Nat) : List (List Nat) :=
  enumLoop (2 * lsbAtLevel level) (cellIdBegin level) (cellIdEnd level) batchSize [] []

/-! ## The feature stream (`GeometricFeatures.__iter__`) -/

/-- One parsed SPARQL solution row handed to `GeometricFeatures.__iter__`
by `GeometryParser.parse`: a feature IRI and a WKT string. -/
structure FeatureRow where
  feature_iri : String
  wkt : String
deriving DecidableEq

/-- The loop body of `GeometricFeatures.__iter__` from
`src/lib/geo/geometric_features.py` (lines 17-24): for each solution row,
read the IRI, then evaluate `loads(solution["wkt"])`, which first resolves
the name `loads` in the module namespace.  A yielded record is the
(IRI, parsed geometry) payload of the constructed `GeometricFeature`; the
geometry slot keeps the WKT text, since the parse never happens. -/
def featuresIterLoop (rows : List FeatureRow) (acc : List (String × String)) :
    List (String × String) × Option String :=
  match rows with
  | [] => (acc, none)
  | r :: rest =>
    match resolvePyName geometricFeaturesModuleNames "loads" with
    | Except.error e => (acc, some e)
    | Except.ok _ => featuresIterLoop rest (acc ++ [(r.feature_iri, r.wkt)])

/-- Embedding of `GeometricFeatures.__iter__`: the records yielded before the iteration
finishes or raises, paired with the raised error (if any). -/
def features_iter (rows : List FeatureRow) : List (String × String) × Option String :=
  featuresIterLoop rows []

/-! ## Helper lemmas -/

theorem digitChar10_allowed (n : Nat) : isAllowedIriChar (digitChar10 n) = true := by
  have h : n % 10 < 10 := Nat.mod_lt _ (by norm_num)
  unfold digitChar10
  interval_cases h : n % 10 <;> decide

theorem digitChar10_isDigit (n : Nat) : (digitChar10 n).isDigit = true := by
  have h : n % 10 < 10 := Nat.mod_lt _ (by norm_num)
  unfold digitChar10
  interval_cases h : n % 10 <;> decide

theorem natDigitsAux_allowed (fuel n : Nat) :
    ∀ ch ∈ natDigitsAux fuel n, isAllowedIriChar ch = true := by
  induction fuel generalizing n with
  | zero => intro ch h; simp [natDigitsAux] at h
  | succ fuel ih =>
    intro ch h
    unfold natDigitsAux at h
    by_cases hn : n < 10
    · simp [hn] at h
      subst h; exact digitChar10_allowed n
    · simp [hn] at h
      rcases h with h | h
      · exact ih (n / 10) ch h
      · subst h; exact digitChar10_allowed n

theorem natDigits_allowed (n : Nat) : ∀ ch ∈ natDigits n, isAllowedIriChar ch = true :=
  natDigitsAux_allowed 30 n

theorem allowed_of_mem {cs : List Char} (hall : cs.all isAllowedIriChar = true)
    {ch : Char} (h : ch ∈ cs) : isAllowedIriChar ch = true :=
  List.all_eq_true.mp hall ch h

theorem cellLevel_lt_31 (c : Nat) : cellLevel c < 31 := by
  unfold cellLevel
  omega

theorem generateCellIri_valid (c : Nat) : IsValidAbsoluteIri (generateCellIriChars c) := by
  constructor
  · refine ⟨"stko-kwg.geog.ucsb.edu/".toList ++ "lod/resource/".toList ++ "s2.level".toList ++
      natDigits (cellLevel c) ++ [Char.ofNat 46] ++ natDigits c, ?_⟩
    simp [generateCellIriChars, mkCellIriChars, kwgrNamespace, kwgEndpoint]
  · intro ch h
    simp only [generateCellIriChars, mkCellIriChars, kwgrNamespace, kwgEndpoint,
      List.mem_append, List.mem_singleton] at h
    rcases h with ((((h | h) | h) | h) | h) | h
    · exact allowed_of_mem (by decide) h
    · exact allowed_of_mem (by decide) h
    · exact allowed_of_mem (by decide) h
    · exact natDigits_allowed _ ch h
    · subst h; decide
    · exact natDigits_allowed _ ch h

theorem conversePredicate_contains_eq : conversePredicate "sfContains" = "sfWithin" := by
  decide

theorem conversePredicate_within_eq : conversePredicate "sfWithin" = "sfContains" := by
  decide

theorem conversePredicate_overlaps_eq : conversePredicate "sfOverlaps" = "sfOverlaps" := by
  decide

theorem conversePredicate_touches_eq : conversePredicate "sfTouches" = "sfTouches" := by
  decide

theorem conversePredicate_crosses_eq : conversePredicate "sfCrosses" = "sfCrosses" := by
  decide

theorem converse_mem_pairs (cells : List Nat) (mk1 mk2 : Nat → Triple)
    (hconv1 : ∀ c, converseTriple (mk1 c) = mk2 c)
    (hconv2 : ∀ c, converseTriple (mk2 c) = mk1 c)
    {t : Triple} (ht : t ∈ (cells.map fun c => [mk1 c, mk2 c]).flatten) :
    converseTriple t ∈ (cells.map fun c => [mk1 c, mk2 c]).flatten := by
  simp only [List.mem_flatten, List.mem_map] at ht ⊢
  obtain ⟨l, ⟨c, hc, rfl⟩, htl⟩ := ht
  refine ⟨[mk1 c, mk2 c], ⟨c, hc, rfl⟩, ?_⟩
  simp only [List.mem_cons, List.not_mem_nil, or_false] at htl ⊢
  rcases htl with rfl | rfl
  · rw [hconv1]
    exact Or.inr rfl
  · rw [hconv2]
    exact Or.inl rfl

theorem fillingExponentsLoop_ne_nil (cover : Nat → List Nat) (es : List Nat)
    (h : es ≠ []) : fillingExponentsLoop cover es ≠ [] := by
  cases es with
  | nil => exact absurd rfl h
  | cons e rest =>
    unfold fillingExponentsLoop
    by_cases hP : (cover (10 ^ e)).length < 10 ^ (e - 1) <;> simp [hP]

theorem fillingExponentsLoop_length_le (cover : Nat → List Nat) (es : List Nat) :
    (fillingExponentsLoop cover es).length ≤ es.length := by
  induction es with
  | nil => simp [fillingExponentsLoop]
  | cons e rest ih =>
    unfold fillingExponentsLoop
    by_cases hP : (cover (10 ^ e)).length < 10 ^ (e - 1)
    · simp [hP]
    · simp only [hP, if_false, Bool.false_eq_true, reduceIte, List.length_cons]
      omega

theorem fillingExponentsLoop_take (cover : Nat → List Nat) (es : List Nat) :
    fillingExponentsLoop cover es = es.take (fillingExponentsLoop cover es).length := by
  induction es with
  | nil => simp [fillingExponentsLoop]
  | cons e rest ih =>
    unfold fillingExponentsLoop
    by_cases hP : (cover (10 ^ e)).length < 10 ^ (e - 1) <;> simp [hP]
    exact ih

theorem getLastD_irrel {α : Type} (l : List α) (h : l ≠ []) (d d' : α) :
    l.getLastD d = l.getLastD d' := by
  cases l with
  | nil => exact absurd rfl h
  | cons a t => rw [List.getLastD_cons, List.getLastD_cons]

theorem fillingLoop_eq_cover_last (cover : Nat → List Nat) (es : List Nat)
    (h : es ≠ []) (acc : List Nat) :
    fillingLoop cover es acc =
      cover (10 ^ ((fillingExponentsLoop cover es).getLastD 0)) := by
  induction es generalizing acc with
  | nil => exact absurd rfl h
  | cons e rest ih =>
    unfold fillingLoop fillingExponentsLoop
    by_cases hP : (cover (10 ^ e)).length < 10 ^ (e - 1)
    · simp [hP]
    · simp only [hP, if_false, Bool.false_eq_true, reduceIte]
      cases rest with
      | nil => simp [fillingLoop, fillingExponentsLoop]
      | cons r rest2 =>
        rw [ih (by simp)]
        have hne := fillingExponentsLoop_ne_nil cover (r :: rest2) (by simp)
        rw [List.getLastD_cons]
        exact congrArg (fun x => cover (10 ^ x))
          (getLastD_irrel (fillingExponentsLoop cover (r :: rest2)) hne 0 e)

theorem fillingExponentsLoop_no_early_break (cover : Nat → List Nat) (es : List Nat) :
    ∀ e ∈ (fillingExponentsLoop cover es).dropLast,
      ¬ (cover (10 ^ e)).length < 10 ^ (e - 1) := by
  induction es with
  | nil => simp [fillingExponentsLoop]
  | cons e rest ih =>
    unfold fillingExponentsLoop
    by_cases hP : (cover (10 ^ e)).length < 10 ^ (e - 1)
    · simp [hP]
    · simp only [hP, if_false, Bool.false_eq_true, reduceIte]
      cases hE : fillingExponentsLoop cover rest with
      | nil => simp
      | cons x xs =>
        intro e2 he2
        rw [List.dropLast_cons₂] at he2
        rcases List.mem_cons.mp he2 with h1 | h1
        · subst h1; exact hP
        · exact ih e2 (by rw [hE]; exact h1)

theorem fillingExponentsLoop_break_cond (cover : Nat → List Nat) (es : List Nat)
    (h : (fillingExponentsLoop cover es).length < es.length) :
    (cover (10 ^ ((fillingExponentsLoop cover es).getLastD 0))).length <
      10 ^ ((fillingExponentsLoop cover es).getLastD 0 - 1) := by
  induction es with
  | nil => simp [fillingExponentsLoop] at h
  | cons e rest ih =>
    unfold fillingExponentsLoop at h ⊢
    by_cases hP : (cover (10 ^ e)).length < 10 ^ (e - 1)
    · simp [hP]
    · simp only [hP, if_false, Bool.false_eq_true, reduceIte] at h ⊢
      simp only [List.length_cons] at h
      have hlt : (fillingExponentsLoop cover rest).length < rest.length := by omega
      have hne : rest ≠ [] := by
        intro hr
        subst hr
        simp [fillingExponentsLoop] at hlt
      have hEne := fillingExponentsLoop_ne_nil cover rest hne
      rw [List.getLastD_cons, getLastD_irrel _ hEne e 0]
      exact ih hlt

theorem mem_graphAdd {g : List Triple} {t x : Triple} :
    x ∈ graphAdd g t ↔ x ∈ g ∨ x = t := by
  unfold graphAdd
  by_cases ht : t ∈ g
  · simp only [ht, if_true]
    constructor
    · exact fun h => Or.inl h
    · rintro (h | rfl)
      · exact h
      · exact ht
  · simp [ht]

theorem graphAdd_length_le (g : List Triple) (t : Triple) :
    (graphAdd g t).length ≤ g.length + 1 := by
  unfold graphAdd
  by_cases ht : t ∈ g <;> simp [ht]

theorem writerStep_inv (T : Nat) (hT : 1 ≤ T) (s : WriterState) (t : Triple)
    (h1 : ∀ f ∈ s.files, f.length ≤ T) (h2 : s.graph.length ≤ s.count)
    (h3 : s.count < T) :
    (∀ f ∈ (writerStep T s t).files, f.length ≤ T) ∧
    (writerStep T s t).graph.length ≤ (writerStep T s t).count ∧
    (writerStep T s t).count < T ∧
    (∀ x : Triple,
      (x ∈ (writerStep T s t).files.flatten ∨ x ∈ (writerStep T s t).graph) ↔
      (x ∈ s.files.flatten ∨ x ∈ s.graph ∨ x = t)) := by
  unfold writerStep
  by_cases hf : T ≤ s.count + 1
  · rw [if_pos hf]
    refine ⟨?_, by simp, by show (0 : Nat) < T; omega, ?_⟩
    · intro f hfm
      rcases List.mem_append.mp hfm with h | h
      · exact h1 f h
      · have heq : f = graphAdd s.graph t := by simpa using h
        subst heq
        have := graphAdd_length_le s.graph t
        omega
    · intro x
      show x ∈ (s.files ++ [graphAdd s.graph t]).flatten ∨ x ∈ ([] : List Triple) ↔ _
      simp only [List.flatten_append, List.flatten_cons, List.flatten_nil,
        List.append_nil, List.mem_append, List.not_mem_nil, or_false]
      rw [mem_graphAdd]
  · rw [if_neg hf]
    refine ⟨h1, ?_, ?_, ?_⟩
    · show (graphAdd s.graph t).length ≤ s.count + 1
      have := graphAdd_length_le s.graph t
      omega
    · show s.count + 1 < T
      omega
    · intro x
      show x ∈ s.files.flatten ∨ x ∈ graphAdd s.graph t ↔ _
      rw [mem_graphAdd]

theorem writer_foldl_inv (T : Nat) (hT : 1 ≤ T) (ts : List Triple) :
    ∀ s : WriterState,
      (∀ f ∈ s.files, f.length ≤ T) → s.graph.length ≤ s.count → s.count < T →
      (∀ f ∈ (ts.foldl (writerStep T) s).files, f.length ≤ T) ∧
      (ts.foldl (writerStep T) s).graph.length ≤ (ts.foldl (writerStep T) s).count ∧
      (ts.foldl (writerStep T) s).count < T ∧
      (∀ x : Triple,
        (x ∈ (ts.foldl (writerStep T) s).files.flatten ∨
          x ∈ (ts.foldl (writerStep T) s).graph) ↔
        (x ∈ s.files.flatten ∨ x ∈ s.graph ∨ x ∈ ts)) := by
  induction ts with
  | nil => intro s h1 h2 h3; exact ⟨h1, h2, h3, fun x => by simp⟩
  | cons t ts ih =>
    intro s h1 h2 h3
    obtain ⟨s1, s2, s3, s4⟩ := writerStep_inv T hT s t h1 h2 h3
    obtain ⟨r1, r2, r3, r4⟩ := ih (writerStep T s t) s1 s2 s3
    refine ⟨r1, r2, r3, fun x => ?_⟩
    rw [List.foldl_cons]
    rw [r4 x]
    have := s4 x
    simp only [List.mem_cons]
    tauto

theorem foldl_over_flatten (T : Nat) (L : List (List Triple)) (b : WriterState) :
    L.foldl (fun s f => f.foldl (writerStep T) s) b =
      L.flatten.foldl (writerStep T) b := by
  induction L generalizing b with
  | nil => rfl
  | cons l L ih => simp [List.flatten_cons, List.foldl_append, ih]

theorem seqFrom_length (step : Nat) : ∀ (n cur : Nat), (seqFrom step cur n).length = n := by
  intro n
  induction n with
  | zero => intro cur; rfl
  | succ n ih => intro cur; simp [seqFrom, ih]

theorem mem_seqFrom (step n : Nat) :
    ∀ (cur c : Nat), c ∈ seqFrom step cur n ↔ ∃ k, k < n ∧ c = cur + k * step := by
  induction n with
  | zero => intro cur c; simp [seqFrom]
  | succ n ih =>
    intro cur c
    rw [seqFrom]
    constructor
    · intro h
      rcases List.mem_cons.mp h with h | h
      · exact ⟨0, Nat.succ_pos n, by simp [h]⟩
      · obtain ⟨k, hk, hc⟩ := (ih (cur + step) c).mp h
        exact ⟨k + 1, by omega, by rw [hc]; ring⟩
    · rintro ⟨k, hk, rfl⟩
      cases k with
      | zero =>
        have : cur + 0 * step = cur := by ring
        rw [this]
        exact List.mem_cons_self _ _
      | succ k =>
        refine List.mem_cons_of_mem _ ((ih (cur + step) _).mpr ⟨k, by omega, by ring⟩)

theorem seqFrom_nodup (step : Nat) (hstep : 0 < step) :
    ∀ (n cur : Nat), (seqFrom step cur n).Nodup := by
  intro n
  induction n with
  | zero => intro cur; simp [seqFrom]
  | succ n ih =>
    intro cur
    rw [seqFrom]
    refine List.nodup_cons.mpr ⟨?_, ih (cur + step)⟩
    intro hmem
    obtain ⟨k, hk, heq⟩ := (mem_seqFrom step n (cur + step) cur).mp hmem
    omega

theorem enumLoop_flatten (step B : Nat) (hstep : 0 < step) :
    ∀ (n cur : Nat) (batch : List Nat) (out : List (List Nat)),
      (enumLoop step cur (cur + n * step) B batch out).flatten =
        out.flatten ++ batch ++ seqFrom step cur n := by
  intro n
  induction n with
  | zero =>
    intro cur batch out
    rw [enumLoop]
    simp only [Nat.zero_mul, Nat.add_zero, if_pos rfl]
    by_cases hb : batch.isEmpty
    · rw [if_pos hb]
      rw [List.isEmpty_iff.mp hb]
      simp [seqFrom]
    · rw [if_neg hb]
      simp [seqFrom]
  | succ n ih =>
    intro cur batch out
    have hpos : 0 < (n + 1) * step := Nat.mul_pos (Nat.succ_pos n) hstep
    have hlt : cur < cur + (n + 1) * step := by omega
    have harr : cur + (n + 1) * step = (cur + step) + n * step := by ring
    rw [enumLoop]
    rw [if_neg (by omega)]
    rw [dif_pos ⟨hlt, hstep⟩]
    by_cases hlen : (batch ++ [cur]).length = B
    · rw [if_pos hlen]
      rw [harr, ih (cur + step) [] (out ++ [batch ++ [cur]])]
      simp [seqFrom]
    · rw [if_neg hlen]
      rw [harr, ih (cur + step) (batch ++ [cur]) out]
      simp [seqFrom]

theorem enumLoop_batch_sizes (step B : Nat) (hstep : 0 < step) (hB : 1 ≤ B) :
    ∀ (n cur : Nat) (batch : List Nat) (out : List (List Nat)),
      batch.length < B → (∀ f ∈ out, f ≠ [] ∧ f.length ≤ B) →
      ∀ f ∈ enumLoop step cur (cur + n * step) B batch out,
        f ≠ [] ∧ f.length ≤ B := by
  intro n
  induction n with
  | zero =>
    intro cur batch out hbatch hout f hf
    rw [enumLoop] at hf
    simp only [Nat.zero_mul, Nat.add_zero, if_pos rfl] at hf
    by_cases hb : batch.isEmpty
    · rw [if_pos hb] at hf
      exact hout f hf
    · rw [if_neg hb] at hf
      rcases List.mem_append.mp hf with h | h
      · exact hout f h
      · have heq : f = batch := by simpa using h
        subst heq
        exact ⟨fun hnil => by simp [hnil] at hb, by omega⟩
  | succ n ih =>
    intro cur batch out hbatch hout f hf
    have hpos : 0 < (n + 1) * step := Nat.mul_pos (Nat.succ_pos n) hstep
    have hlt : cur < cur + (n + 1) * step := by omega
    have harr : cur + (n + 1) * step = (cur + step) + n * step := by ring
    rw [enumLoop] at hf
    rw [if_neg (by omega)] at hf
    rw [dif_pos ⟨hlt, hstep⟩] at hf
    by_cases hlen : (batch ++ [cur]).length = B
    · rw [if_pos hlen, harr] at hf
      refine ih (cur + step) [] (out ++ [batch ++ [cur]]) (by simpa using hB) ?_ f hf
      intro g hg
      rcases List.mem_append.mp hg with h | h
      · exact hout g h
      · have heq : g = batch ++ [cur] := by simpa using h
        subst heq
        exact ⟨by simp, by omega⟩
    · rw [if_neg hlen, harr] at hf
      refine ih (cur + step) (batch ++ [cur]) out ?_ hout f hf
      have : (batch ++ [cur]).length = batch.length + 1 := by simp
      omega

theorem cellIdEnd_eq (L : Nat) (hL : L ≤ 30) :
    cellIdEnd L = cellIdBegin L + (6 * 4 ^ L) * (2 * lsbAtLevel L) := by
  unfold cellIdEnd cellIdBegin lsbAtLevel
  have h4 : (4 : Nat) ^ L = 2 ^ (2 * L) := by
    rw [pow_mul]
    norm_num
  have he : 2 * L + 2 * (30 - L) = 60 := by omega
  have key : (6 * 4 ^ L) * (2 * 2 ^ (2 * (30 - L))) = 6 * 2 ^ 61 := by
    rw [h4]
    rw [show (6 : Nat) * 2 ^ (2 * L) * (2 * 2 ^ (2 * (30 - L))) =
      12 * (2 ^ (2 * L) * 2 ^ (2 * (30 - L))) from by ring]
    rw [← pow_add, he]
    norm_num
  omega

/-! ## Claim theorems -/

/-- C8: for every cell id, `generate_cell_iri` produces a syntactically
valid absolute IRI that is a pure function of the cell level and the
64-bit id (the template `<base>/lod/resource/s2.level{L}.{ID}`), and on
the concrete cell id 288230376151711744 it produces
`http://stko-kwg.geog.ucsb.edu/lod/resource/s2.level1.288230376151711744`. -/
theorem claim_C8_cell_iri :
    (∀ c : Nat, IsValidAbsoluteIri (generateCellIriChars c) ∧
      generateCellIriChars c = mkCellIriChars (cellLevel c) c) ∧
    generate_cell_iri 288230376151711744 =
      "http://stko-kwg.geog.ucsb.edu/lod/resource/s2.level1.288230376151711744" := by
  refine ⟨fun c => ⟨generateCellIri_valid c, rfl⟩, ?_⟩
  decide

/-- Witness for C8: the universally quantified part instantiated at the
concrete cell id 288230376151711744 of level 1. -/
theorem claim_C8_cell_iri_witness :
    IsValidAbsoluteIri (generateCellIriChars 288230376151711744) ∧
    generateCellIriChars 288230376151711744 =
      mkCellIriChars (cellLevel 288230376151711744) 288230376151711744 :=
  claim_C8_cell_iri.1 288230376151711744

/-- C5 fails on the code: for a LineString feature the materializer is
claimed to emit symmetric sfCrosses pairs without failing, but
`yield_s2_relations` evaluates
`isinstance(self.geometry, (LineString, MultiLineString))` and the name
`MultiLineString` is never imported in `geometric_feature.py`, so the
generator raises NameError before yielding anything. -/
theorem claim_C5_line_crossing_name_error :
    yield_s2_relations "https://example.org/line1" PyGeometry.lineString
      (fun _ => []) [] [17] (fun _ => 0) =
    ([], some "NameError: name MultiLineString is not defined") := by
  rfl

/-- C6 fails on the code: for a Point feature (POINT(-118.25 34.05),
modelled in hundredths of a degree) the claimed two triples are never
emitted, because the elif chain evaluates
`isinstance(self.geometry, (LineString, MultiLineString))` before reaching
the Point branch and the unbound name `MultiLineString` raises NameError. -/
theorem claim_C6_point_name_error :
    yield_s2_relations "https://example.org/p1"
      (PyGeometry.point (-11825, 3405)) (fun _ => []) [] [] (fun _ => 0) =
    ([], some "NameError: name MultiLineString is not defined") := by
  rfl

/-- C9 fails on the code: on the two polygon rows of the repository's own
`test_iter` test, `GeometricFeatures.__iter__` yields zero records and
raises NameError, because `loads` (the shapely WKT parser) is never
imported in `geometric_features.py`. -/
theorem claim_C9_feature_stream_name_error :
    features_iter
      [{ feature_iri := "http://stko-kwg.geog.ucsb.edu/lod/resource/geometry.polygon.s2.level1.10088063165309911040",
         wkt := "POLYGON ((-90 45, -90 0, -45 0, -45 35.264389682754654, -90 45))" },
       { feature_iri := "http://stko-kwg.geog.ucsb.edu/lod/resource/geometry.polygon.s2.level1.10664523917613334528",
         wkt := "POLYGON ((-90 0, -90 -45, -45 -35.264389682754654, -45 0, -90 0))" }] =
    ([], some "NameError: name loads is not defined") := by
  rfl

/-- C7: in feature mode, when `compressed` is true the coverer minimum
level is forced to 0 regardless of the configured `min_level`; when
`compressed` is false it stays at the configured `min_level` (for any
valid configured level 0 <= min_level <= 30). -/
theorem claim_C7_compressed_min_level (minL maxL : Int) :
    (integratorFeatureCoverer true minL maxL).minLevel = 0 ∧
    (0 ≤ minL → minL ≤ 30 →
      (integratorFeatureCoverer false minL maxL).minLevel = minL) := by
  constructor
  · simp [integratorFeatureCoverer, setMinLevel]
  · intro h0 h30
    by_cases hz : minL = 0
    · subst hz
      by_cases hmx : ¬maxL = 0 ∧ 0 ≤ maxL <;>
        simp [integratorFeatureCoverer, constrainedS2RegionCoverer, setMaxLevel,
          s2RegionCovererDefault, hmx]
    · simp only [integratorFeatureCoverer, Bool.not_false, if_true, hz,
        ne_eq, not_false_eq_true, if_pos, setMinLevel]
      omega

/-- Witness for C7: concrete run with configured levels min=5, max=10. -/
theorem claim_C7_compressed_min_level_witness :
    (integratorFeatureCoverer true 5 10).minLevel = 0 ∧
    (0 : Int) ≤ 5 ∧ (5 : Int) ≤ 30 ∧
    (integratorFeatureCoverer false 5 10).minLevel = 5 :=
  ⟨(claim_C7_compressed_min_level 5 10).1, by decide, by decide,
    (claim_C7_compressed_min_level 5 10).2 (by decide) (by decide)⟩

/-- C10: with `target_parent_level = 0` the describer emits the pair for
the immediate parent one level up (the integer 0 is falsy, so the
`parent()` branch runs), while the level-0 ancestor walk would give a
different cell (shown at the concrete level-2 cell 2^56); and when
`target_parent_level` is at least the cell's own level, the parent walk
returns the cell itself, so the emitted pair is the reflexive
(cell, sfWithin, cell) and (cell, sfContains, cell). -/
theorem claim_C10_parent_dispatch :
    (∀ c : Nat, 0 < cellLevel c →
      add_parent_relations c (some 0) =
        [Triple.mk (generate_cell_iri c) "sfWithin" (generate_cell_iri (cellParent c)),
         Triple.mk (generate_cell_iri (cellParent c)) "sfContains" (generate_cell_iri c)]) ∧
    describerParent (2 ^ 56) (some 0) = cellParent (2 ^ 56) ∧
    get_parent_at_level 64 (2 ^ 56) (cellLevel (2 ^ 56) : Int) 0 ≠
      describerParent (2 ^ 56) (some 0) ∧
    (∀ (c : Nat) (t : Int), 0 < cellLevel c → (cellLevel c : Int) ≤ t →
      add_parent_relations c (some t) =
        [Triple.mk (generate_cell_iri c) "sfWithin" (generate_cell_iri c),
         Triple.mk (generate_cell_iri c) "sfContains" (generate_cell_iri c)]) := by
  refine ⟨?_, by decide, by decide, ?_⟩
  · intro c hc
    simp [add_parent_relations, hc, cellLevel_lt_31 c, describerParent, truthyTarget]
  · intro c t hc ht
    have htr : truthyTarget (some t) = true := by
      simp only [truthyTarget, bne_iff_ne, ne_eq]
      omega
    have hwalk : get_parent_at_level 64 c (cellLevel c : Int) t = c := by
      unfold get_parent_at_level
      rw [if_neg (by omega)]
    simp [add_parent_relations, hc, cellLevel_lt_31 c, describerParent, htr,
      Option.getD, hwalk]

/-- Witness for C10: the two universally quantified parts instantiated at
the level-2 cell 2^56, with target levels 0 and 5. -/
theorem claim_C10_parent_dispatch_witness :
    0 < cellLevel (2 ^ 56) ∧
    add_parent_relations (2 ^ 56) (some 0) =
      [Triple.mk (generate_cell_iri (2 ^ 56)) "sfWithin"
         (generate_cell_iri (cellParent (2 ^ 56))),
       Triple.mk (generate_cell_iri (cellParent (2 ^ 56))) "sfContains"
         (generate_cell_iri (2 ^ 56))] ∧
    (cellLevel (2 ^ 56) : Int) ≤ 5 ∧
    add_parent_relations (2 ^ 56) (some 5) =
      [Triple.mk (generate_cell_iri (2 ^ 56)) "sfWithin" (generate_cell_iri (2 ^ 56)),
       Triple.mk (generate_cell_iri (2 ^ 56)) "sfContains" (generate_cell_iri (2 ^ 56))] :=
  ⟨by decide, claim_C10_parent_dispatch.1 (2 ^ 56) (by decide), by decide,
    claim_C10_parent_dispatch.2.2.2 (2 ^ 56) 5 (by decide) (by decide)⟩

/-- C2: every emitted topological triple is closed under its converse -
for every triple emitted by the relation materializer or by the cell
describer's neighbor/parent edges, the triple with subject and object
swapped and the converse predicate (sfWithin for sfContains and vice
versa; sfOverlaps, sfTouches and sfCrosses map to themselves) is also
emitted. -/
theorem claim_C2_converse_closure :
    (∀ (featureIri : String) (geometry : PyGeometry) (cover : Nat → List Nat)
        (overlapCells crossingCells : List Nat) (leafCell : Int × Int → Nat)
        (t : Triple),
      t ∈ (yield_s2_relations featureIri geometry cover overlapCells
            crossingCells leafCell).1 →
      converseTriple t ∈ (yield_s2_relations featureIri geometry cover overlapCells
            crossingCells leafCell).1) ∧
    (∀ (neighbors : List Nat) (cell : Nat) (target : Option Int) (t : Triple),
      t ∈ describerTopoTriples neighbors cell target →
      converseTriple t ∈ describerTopoTriples neighbors cell target) := by
  constructor
  · intro fi g cover oc cc lf t ht
    cases g <;>
      simp only [yield_s2_relations, isPolygonInstance, if_true, if_false,
        Bool.false_eq_true, reduceIte, resolvePyName, geometricFeatureModuleNames] at ht ⊢
    case polygon | multiPolygon =>
      rcases List.mem_append.mp ht with h | h
      · exact List.mem_append_left _ (converse_mem_pairs _ _ _
          (fun c => by simp [converseTriple, conversePredicate_contains_eq])
          (fun c => by simp [converseTriple, conversePredicate_within_eq]) h)
      · exact List.mem_append_right _ (converse_mem_pairs _ _ _
          (fun c => by simp [converseTriple, conversePredicate_overlaps_eq])
          (fun c => by simp [converseTriple, conversePredicate_overlaps_eq]) h)
    all_goals simp_all
  · intro nbs cell target t ht
    rcases List.mem_append.mp ht with h | h
    · refine List.mem_append_left _ ?_
      exact converse_mem_pairs _ _ _
        (fun c => by simp [converseTriple, conversePredicate_touches_eq])
        (fun c => by simp [converseTriple, conversePredicate_touches_eq]) h
    · refine List.mem_append_right _ ?_
      unfold add_parent_relations at h ⊢
      by_cases hc : 0 < cellLevel cell ∧ cellLevel cell < 31
      · rw [if_pos hc] at h ⊢
        simp only [List.mem_cons, List.not_mem_nil, or_false] at h ⊢
        rcases h with h1 | h1
        · subst h1
          exact Or.inr (by simp [converseTriple, conversePredicate_within_eq])
        · subst h1
          exact Or.inl (by simp [converseTriple, conversePredicate_contains_eq])
      · rw [if_neg hc] at h
        simp at h

/-- Witness for C2: a concrete polygon feature whose overlap covering is
the single cell 1; the emitted sfOverlaps triple has its converse in the
output, and a concrete describer cell 2^56 with neighbor 3*2^56 has the
converse of its sfTouches edge in the output. -/
theorem claim_C2_converse_closure_witness :
    (Triple.mk "https://example.org/f" "sfOverlaps" (generate_cell_iri 1) ∈
      (yield_s2_relations "https://example.org/f" PyGeometry.polygon
        (fun _ => []) [1] [] (fun _ => 0)).1) ∧
    (converseTriple (Triple.mk "https://example.org/f" "sfOverlaps" (generate_cell_iri 1)) ∈
      (yield_s2_relations "https://example.org/f" PyGeometry.polygon
        (fun _ => []) [1] [] (fun _ => 0)).1) ∧
    (Triple.mk (generate_cell_iri (2 ^ 56)) "sfTouches" (generate_cell_iri (3 * 2 ^ 56)) ∈
      describerTopoTriples [3 * 2 ^ 56] (2 ^ 56) none) ∧
    (converseTriple (Triple.mk (generate_cell_iri (2 ^ 56)) "sfTouches"
        (generate_cell_iri (3 * 2 ^ 56))) ∈
      describerTopoTriples [3 * 2 ^ 56] (2 ^ 56) none) :=
  ⟨by decide, claim_C2_converse_closure.1 "https://example.org/f" PyGeometry.polygon
      (fun _ => []) [1] [] (fun _ => 0) _ (by decide),
   by decide, claim_C2_converse_closure.2 [3 * 2 ^ 56] (2 ^ 56) none _ (by decide)⟩

/-- C1: the interior-filling saturation loop iterates over exponents 4
through 8 in order (the executed exponents are a prefix of [4..8]), breaks
as soon as the returned cell count drops below 10^(exp-1) (no earlier
executed exponent satisfies the break condition, and when the loop stops
before exponent 8 the last one does), therefore executes at least 1 and at
most 5 iterations, and returns the covering computed by the last executed
iteration. -/
theorem claim_C1_saturation_loop (cover : Nat → List Nat) :
    1 ≤ (fillingExponents cover).length ∧
    (fillingExponents cover).length ≤ 5 ∧
    fillingExponents cover = [4, 5, 6, 7, 8].take (fillingExponents cover).length ∧
    filling cover = cover (10 ^ ((fillingExponents cover).getLastD 0)) ∧
    (∀ e ∈ (fillingExponents cover).dropLast,
      ¬ (cover (10 ^ e)).length < 10 ^ (e - 1)) ∧
    ((fillingExponents cover).length < 5 →
      (cover (10 ^ ((fillingExponents cover).getLastD 0))).length <
        10 ^ ((fillingExponents cover).getLastD 0 - 1)) := by
  have hne : ([4, 5, 6, 7, 8] : List Nat) ≠ [] := by simp
  unfold fillingExponents filling
  refine ⟨?_, ?_, ?_, ?_, ?_, ?_⟩
  · have := fillingExponentsLoop_ne_nil cover [4, 5, 6, 7, 8] hne
    have := List.length_pos.mpr this
    omega
  · exact fillingExponentsLoop_length_le cover [4, 5, 6, 7, 8]
  · exact fillingExponentsLoop_take cover [4, 5, 6, 7, 8]
  · exact fillingLoop_eq_cover_last cover [4, 5, 6, 7, 8] hne []
  · exact fillingExponentsLoop_no_early_break cover [4, 5, 6, 7, 8]
  · exact fillingExponentsLoop_break_cond cover [4, 5, 6, 7, 8]

/-- Witness for C1: the saturation contract instantiated at the coverer
oracle that always returns the empty covering, which breaks at the first
exponent. -/
theorem claim_C1_saturation_loop_witness :
    1 ≤ (fillingExponents (fun _ => ([] : List Nat))).length ∧
    (fillingExponents (fun _ => ([] : List Nat))).length ≤ 5 ∧
    filling (fun _ => ([] : List Nat)) =
      (fun _ => ([] : List Nat))
        (10 ^ ((fillingExponents (fun _ => ([] : List Nat))).getLastD 0)) :=
  ⟨(claim_C1_saturation_loop (fun _ => [])).1,
   (claim_C1_saturation_loop (fun _ => [])).2.1,
   (claim_C1_saturation_loop (fun _ => [])).2.2.2.1⟩

/-- C3 counterexample: the claim's multiset-preservation part is false.
On the duplicate sfOverlaps stream (4 yielded triples, 2 distinct) with
flush threshold 4, the written files hold 2 triples in total, so the union
of the files is not a permutation of the yielded multiset: the rdflib
graph buffer is a set and collapses duplicates inside a flush window. -/
theorem claim_C3_flush_multiset_counterexample :
    duplicateOverlapStream.length = 4 ∧
    (write_all_relations 4 [duplicateOverlapStream]).flatten.length = 2 ∧
    ¬ (write_all_relations 4 [duplicateOverlapStream]).flatten.Perm
        duplicateOverlapStream := by
  refine ⟨by decide, by decide, ?_⟩
  intro hperm
  have := hperm.length_eq
  revert this
  decide

/-- C3 as amended: in feature mode with flush threshold T >= 1, no output
file contains more than T triples, and the union of the written files
equals the set of triples yielded by the relation materializer - every
yielded triple is in some file and every file triple was yielded, but
multiplicities inside a flush window are collapsed by the set-valued
buffer. -/
theorem claim_C3_flush_safety_amended (T : Nat) (features : List (List Triple))
    (hT : 1 ≤ T) :
    (∀ f ∈ write_all_relations T features, f.length ≤ T) ∧
    (∀ t : Triple,
      t ∈ (write_all_relations T features).flatten ↔ t ∈ features.flatten) := by
  unfold write_all_relations
  rw [foldl_over_flatten]
  obtain ⟨r1, r2, r3, r4⟩ :=
    writer_foldl_inv T hT features.flatten writerInit
      (by intro f hf; simp [writerInit] at hf) (by simp [writerInit])
      (by simp [writerInit]; omega)
  set s := features.flatten.foldl (writerStep T) writerInit with hs
  by_cases hc : 0 < s.count
  · rw [if_pos hc]
    constructor
    · intro f hf
      rcases List.mem_append.mp hf with h | h
      · exact r1 f h
      · have heq : f = s.graph := by simpa using h
        subst heq
        omega
    · intro t
      have h4 := r4 t
      simp only [writerInit, List.flatten_nil, List.not_mem_nil, false_or,
        or_false] at h4
      rw [List.flatten_append]
      simp only [List.flatten_cons, List.flatten_nil, List.append_nil,
        List.mem_append]
      exact h4
  · rw [if_neg hc]
    have hg : s.graph = [] := by
      have : s.graph.length = 0 := by omega
      exact List.eq_nil_of_length_eq_zero this
    constructor
    · exact r1
    · intro t
      have h4 := r4 t
      simp only [writerInit, List.flatten_nil, List.not_mem_nil, false_or,
        or_false, hg] at h4
      exact h4

/-- Witness for the amended C3: threshold 2 on a single-feature stream
with one triple. -/
theorem claim_C3_flush_safety_amended_witness :
    1 ≤ 2 ∧
    (∀ f ∈ write_all_relations 2 [[Triple.mk "s" "p" "o"]], f.length ≤ 2) ∧
    (∀ t : Triple,
      t ∈ (write_all_relations 2 [[Triple.mk "s" "p" "o"]]).flatten ↔
        t ∈ ([[Triple.mk "s" "p" "o"]] : List (List Triple)).flatten) :=
  ⟨by decide,
   (claim_C3_flush_safety_amended 2 [[Triple.mk "s" "p" "o"]] (by decide)).1,
   (claim_C3_flush_safety_amended 2 [[Triple.mk "s" "p" "o"]] (by decide)).2⟩

/-- C4: in cell mode, for every level L <= 30 and batch size B >= 1, the
batching generator partitions the canonical enumeration from Begin(L) to
End(L): every batch is non-empty with length at most B; the concatenation
of the batches contains a cell id exactly when it is a level-L id below
the End sentinel (lsb residue characterization) and contains no
duplicates; and its total length is 6 * 4^L (6 cells at level 0). -/
theorem claim_C4_cell_batching (L B : Nat) (hL : L ≤ 30) (hB : 1 ≤ B) :
    (∀ f ∈ generate_cells_at_level L B, f ≠ [] ∧ f.length ≤ B) ∧
    (∀ c : Nat, c ∈ (generate_cells_at_level L B).flatten ↔
      (c % (2 * lsbAtLevel L) = lsbAtLevel L ∧ c < cellIdEnd L)) ∧
    (generate_cells_at_level L B).flatten.Nodup ∧
    (generate_cells_at_level L B).flatten.length = 6 * 4 ^ L := by
  have hlsb : 0 < lsbAtLevel L := pow_pos (by norm_num) _
  have hstep : 0 < 2 * lsbAtLevel L := by omega
  have hgen : generate_cells_at_level L B =
      enumLoop (2 * lsbAtLevel L) (cellIdBegin L)
        (cellIdBegin L + (6 * 4 ^ L) * (2 * lsbAtLevel L)) B [] [] := by
    unfold generate_cells_at_level
    rw [cellIdEnd_eq L hL]
  have hflat : (generate_cells_at_level L B).flatten =
      seqFrom (2 * lsbAtLevel L) (cellIdBegin L) (6 * 4 ^ L) := by
    rw [hgen, enumLoop_flatten _ _ hstep]
    simp
  refine ⟨?_, ?_, ?_, ?_⟩
  · intro f hf
    rw [hgen] at hf
    exact enumLoop_batch_sizes _ _ hstep hB _ _ [] []
      (by simp only [List.length_nil]; omega) (by simp) f hf
  · intro c
    rw [hflat, mem_seqFrom]
    constructor
    · rintro ⟨k, hk, rfl⟩
      constructor
      · rw [Nat.add_mul_mod_self_right]
        exact Nat.mod_eq_of_lt (by unfold cellIdBegin; omega)
      · rw [cellIdEnd_eq L hL]
        have : k * (2 * lsbAtLevel L) < (6 * 4 ^ L) * (2 * lsbAtLevel L) :=
          (Nat.mul_lt_mul_right hstep).mpr hk
        omega
    · rintro ⟨hmod, hlt⟩
      refine ⟨c / (2 * lsbAtLevel L), ?_, ?_⟩
      · rw [cellIdEnd_eq L hL] at hlt
        have hdm := Nat.div_add_mod c (2 * lsbAtLevel L)
        rw [hmod] at hdm
        have hc : c = cellIdBegin L + (c / (2 * lsbAtLevel L)) * (2 * lsbAtLevel L) := by
          unfold cellIdBegin
          rw [Nat.mul_comm] at hdm
          omega
        rw [hc] at hlt
        have := Nat.add_lt_add_iff_left.mp hlt
        exact (Nat.mul_lt_mul_right hstep).mp this
      · have hdm := Nat.div_add_mod c (2 * lsbAtLevel L)
        rw [hmod] at hdm
        unfold cellIdBegin
        rw [Nat.mul_comm] at hdm
        omega
  · rw [hflat]
    exact seqFrom_nodup _ hstep _ _
  · rw [hflat, seqFrom_length]

/-- Witness for C4: level 0 with batch size 1 - the flattened batches
enumerate exactly 6 * 4^0 = 6 face cells (scenario S5). -/
theorem claim_C4_cell_batching_witness :
    (0 : Nat) ≤ 30 ∧ 1 ≤ 1 ∧
    (generate_cells_at_level 0 1).flatten.length = 6 * 4 ^ 0 :=
  ⟨by decide, by decide,
   (claim_C4_cell_batching 0 1 (by decide) (by decide)).2.2.2⟩

end S2Cov
